import Mathlib

/-!
Verification development for the dumb_cfd convection core.

The source consists of src/dumb_cfd/convection.py (the equation
dispatcher and the four rank x linearity specializations, of which only
convection_linear_1d is implemented) and src/dumb_cfd/utils.py (the
boundary updaters constant_1d, constant_2d, periodic_1d, periodic_2d and
the rank dispatcher update_boundary).

Rank-1 buffers are embedded as a length together with a total value
function (Vec); rank-2 buffers likewise (Mat). Cell values are rational
numbers standing for the exact arithmetic the floating-point code
performs. Python negative indexing is modelled by pyIdx; numpy slice
assignment on a rank-2 array is modelled as a guarded function override.
Fallible Python calls are modelled with Except over PyErr.
-/

/-- Errors the Python code can raise: RuntimeError from the dispatcher's
fall-through branch, NotImplementedError from the stub bodies, TypeError
from a keyword argument the callee's signature does not accept, and
ValueError from tuple unpacking of a tuple of the wrong length. -/
inductive PyErr where
  | runtimeError
  | notImplementedError
  | typeError
  | valueError
deriving DecidableEq, Repr

/-- A rank-1 numpy buffer: a length and a total value function.
Cells at indices at or beyond len are junk; the source never reads them. -/
structure Vec where
  len : ℕ
  get : ℕ → ℚ

/-- Python index semantics for a rank-1 buffer of length L: a negative
index counts from the end. In-range accesses coincide with the source;
the source never performs an out-of-range access on the inputs the
claims quantify over. -/
def pyIdx (L : ℕ) (i : ℤ) : ℕ :=
  (if i < 0 then i + L else i).toNat

/-- Read working_array[i] with Python index semantics. -/
def Vec.pyGet (a : Vec) (i : ℤ) : ℚ :=
  a.get (pyIdx a.len i)

/-- Write working_array[i] = v with Python index semantics. -/
def Vec.pySet (a : Vec) (i : ℤ) (v : ℚ) : Vec :=
  ⟨a.len, fun j => if j = pyIdx a.len i then v else a.get j⟩

/-- Build a Vec from a list of rationals. -/
def vecOfList (l : List ℚ) : Vec :=
  ⟨l.length, fun i => l.getD i 0⟩

/-- utils.constant_1d: for i in range(boundary_size):
working_array[i] = constant_boundary_value;
working_array[-(i+1)] = constant_boundary_value. -/
def constant_1d (working_array : Vec) (boundary_size : ℕ)
    (constant_boundary_value : ℚ) : Vec :=
  (List.range boundary_size).foldl
    (fun w i =>
      (w.pySet i constant_boundary_value).pySet (-(i + 1 : ℤ))
        constant_boundary_value)
    working_array

/-- One iteration of the utils.periodic_1d loop body:
working_array[i] = working_array[i - 2 * boundary_size];
working_array[-(i+1)] = working_array[2 * boundary_size - (i+1)].
The second statement reads the buffer after the first statement's write,
exactly as the Python executes. -/
def periodic1dBody (boundary_size : ℕ) (w : Vec) (i : ℕ) : Vec :=
  let w1 := w.pySet i (w.pyGet (i - 2 * boundary_size))
  w1.pySet (-(i + 1 : ℤ)) (w1.pyGet (2 * boundary_size - (i + 1)))

/-- utils.periodic_1d: for i in range(boundary_size), run the loop body. -/
def periodic_1d (working_array : Vec) (boundary_size : ℕ) : Vec :=
  (List.range boundary_size).foldl (periodic1dBody boundary_size)
    working_array

/-- utils.update_boundary specialized to a rank-1 working_array (ndim == 1):
the two rank-1 branches of the if-chain, which are mutually exclusive on
the periodic flag. -/
def update_boundary (working_array : Vec) (boundary_size : ℕ)
    (periodic : Bool) (constant_boundary_value : ℚ) : Vec :=
  if periodic then periodic_1d working_array boundary_size
  else constant_1d working_array boundary_size constant_boundary_value

/-- numpy.pad(initial_state, (boundary_size, boundary_size)): embed the
field in a zero-initialized buffer widened by boundary_size on each side. -/
def np_pad (initial_state : Vec) (boundary_size : ℕ) : Vec :=
  ⟨initial_state.len + 2 * boundary_size,
   fun i =>
     if boundary_size ≤ i ∧ i < boundary_size + initial_state.len then
       initial_state.get (i - boundary_size)
     else 0⟩

/-- state[boundary_size:-boundary_size]: strip the padding again. -/
def np_strip (state : Vec) (boundary_size : ℕ) : Vec :=
  ⟨state.len - 2 * boundary_size, fun i => state.get (i + boundary_size)⟩

/-- The interior update of convection_linear_1d,
state[1:-1] -= coef * (state[1:-1] - state[:-2]) with
coef = speed_x * timestep_size / step_length_x, under numpy semantics: the
right-hand side temporary t = state[1:-1] - state[:-2] is fully computed
from the pre-assignment buffer before the slice is overwritten. -/
def np_isub_interior (state : Vec) (coef : ℚ) : Vec :=
  let t : ℕ → ℚ := fun j => state.get (1 + j) - state.get j
  ⟨state.len,
   fun x =>
     if 1 ≤ x ∧ x + 1 < state.len then state.get x - coef * t (x - 1)
     else state.get x⟩

/-- The per-step state of the convection_linear_1d loop: state 0 is the
padded initial field, and each step first calls
update_boundary(state, boundary_size=1, periodic=periodic) - note the
source does not forward constant_boundary_value, so update_boundary runs
with its default 0.0 - and then performs the in-place interior update.
The constant_boundary_value parameter is carried to mirror the source
scope, where it is likewise unused by the loop body. -/
def linear1dLoopState (initial_state : Vec) (timestep_size : ℚ)
    (step_length_x : ℚ) (speed_x : ℚ) (constant_boundary_value : ℚ)
    (periodic : Bool) : ℕ → Vec
  | 0 => np_pad initial_state 1
  | k + 1 =>
      np_isub_interior
        (update_boundary
          (linear1dLoopState initial_state timestep_size step_length_x
            speed_x constant_boundary_value periodic k)
          1 periodic 0)
        (speed_x * timestep_size / step_length_x)

/-- The intermediate buffer inside step k+1 of the convection_linear_1d
loop, right after that step's update_boundary call and before the
interior update. The literal 0 is the Python default of
constant_boundary_value in update_boundary, which the call site does not
override. -/
def linear1dAfterBoundary (initial_state : Vec) (timestep_size : ℚ)
    (step_length_x : ℚ) (speed_x : ℚ) (constant_boundary_value : ℚ)
    (periodic : Bool) (k : ℕ) : Vec :=
  update_boundary
    (linear1dLoopState initial_state timestep_size step_length_x speed_x
      constant_boundary_value periodic k)
    1 periodic 0

/-- convection.convection_linear_1d. The tuple unpackings
step_length_x, = step_length and speed_x, = speed raise ValueError unless
the tuples have exactly one element; otherwise the function pads, runs
num_timesteps loop iterations, and strips the padding. -/
def convection_linear_1d (initial_state : Vec) (num_timesteps : ℕ)
    (timestep_size : ℚ) (step_length : List ℚ) (periodic : Bool)
    (speed : List ℚ) (constant_boundary_value : ℚ) : Except PyErr Vec :=
  match step_length, speed with
  | [step_length_x], [speed_x] =>
      .ok (np_strip
        (linear1dLoopState initial_state timestep_size step_length_x
          speed_x constant_boundary_value periodic num_timesteps)
        1)
  | _, _ => .error .valueError

/-- convection.convection_nonlinear_1d: its body is raise NotImplementedError.
Its signature has no constant_boundary_value parameter. -/
def convection_nonlinear_1d (_initial_state : Vec) (_num_timesteps : ℕ)
    (_timestep_size : ℚ) (_step_length : List ℚ) (_periodic : Bool) :
    Except PyErr Vec :=
  .error .notImplementedError

/-- A rank-2 numpy buffer: a shape and a total value function. -/
structure Mat where
  rows : ℕ
  cols : ℕ
  get : ℕ → ℕ → ℚ

/-- Build a Mat from a list of rows. -/
def matOfLists (ll : List (List ℚ)) : Mat :=
  ⟨ll.length, (ll.headD []).length, fun x y => (ll.getD x []).getD y 0⟩

/-- convection.convection_linear_2d: its body is raise NotImplementedError. -/
def convection_linear_2d (_initial_state : Mat) (_num_timesteps : ℕ)
    (_timestep_size : ℚ) (_step_length : List ℚ) (_periodic : Bool)
    (_speed : List ℚ) (_constant_boundary_value : ℚ) : Except PyErr Mat :=
  .error .notImplementedError

/-- convection.convection_nonlinear_2d: its body is raise NotImplementedError. -/
def convection_nonlinear_2d (_initial_state : Mat) (_num_timesteps : ℕ)
    (_timestep_size : ℚ) (_step_length : List ℚ) (_periodic : Bool)
    (_constant_boundary_value : ℚ) : Except PyErr Mat :=
  .error .notImplementedError

/-- An initial_state as the dispatcher sees it: a rank-1 array, a rank-2
array, or an array of any other rank n (n not in {1, 2}; the dispatcher
only inspects ndim of such an array, never its contents). -/
inductive PyArray where
  | r1 (v : Vec)
  | r2 (m : Mat)
  | rother (n : ℕ)

/-- numpy ndim of the array. -/
def PyArray.ndim : PyArray → ℕ
  | .r1 _ => 1
  | .r2 _ => 2
  | .rother n => n

/-- Python truthiness of the speed argument: None is falsy and a tuple is
truthy exactly when it is non-empty. -/
def truthy : Option (List ℚ) → Bool
  | none => false
  | some l => !l.isEmpty

/-- convection.convection, the equation dispatcher. Branches in source
order on ndim and the truthiness of speed. The (ndim == 1 and not speed)
branch calls convection_nonlinear_1d with the keyword argument
constant_boundary_value=constant_boundary_value, which that function's
signature does not accept, so Python raises TypeError at the call before
the callee body runs; the branch is modelled as that TypeError. The
rank-2 branches reach the NotImplementedError bodies of
convection_linear_2d and convection_nonlinear_2d. The fall-through
raises RuntimeError. -/
def convection (initial_state : PyArray) (num_timesteps : ℕ)
    (timestep_size : ℚ) (step_length : List ℚ) (periodic : Bool)
    (speed : Option (List ℚ)) (constant_boundary_value : ℚ) :
    Except PyErr PyArray :=
  match initial_state with
  | .r1 v =>
      if truthy speed then
        (convection_linear_1d v num_timesteps timestep_size step_length
          periodic (speed.getD []) constant_boundary_value).map .r1
      else .error .typeError
  | .r2 m =>
      if truthy speed then
        (convection_linear_2d m num_timesteps timestep_size step_length
          periodic (speed.getD []) constant_boundary_value).map .r2
      else
        (convection_nonlinear_2d m num_timesteps timestep_size step_length
          periodic constant_boundary_value).map .r2
  | .rother _ => .error .runtimeError

/-- Slice assignment working_array[lo:hi, :] = v on a rank-2 buffer
(row bounds already resolved to a half-open range of naturals). -/
def setRows (a : Mat) (lo hi : ℕ) (v : ℚ) : Mat :=
  { a with get := fun x y => if lo ≤ x ∧ x < hi then v else a.get x y }

/-- Slice assignment working_array[:, lo:hi] = v on a rank-2 buffer. -/
def setCols (a : Mat) (lo hi : ℕ) (v : ℚ) : Mat :=
  { a with get := fun x y => if lo ≤ y ∧ y < hi then v else a.get x y }

/-- utils.constant_2d: for i in range(boundary_size):
working_array[i:, :] = v; working_array[:-(i+1), :] = v;
working_array[:, i:] = v; working_array[:, :-(i+1)] = v.
The slice [i:] covers rows i through the end and [:-(i+1)] covers rows 0
through rows-(i+1); natural subtraction models Python's clamping of an
empty slice when i+1 exceeds the extent. -/
def constant_2d (working_array : Mat) (boundary_size : ℕ)
    (constant_boundary_value : ℚ) : Mat :=
  (List.range boundary_size).foldl
    (fun w i =>
      let w := setRows w i w.rows constant_boundary_value
      let w := setRows w 0 (w.rows - (i + 1)) constant_boundary_value
      let w := setCols w i w.cols constant_boundary_value
      setCols w 0 (w.cols - (i + 1)) constant_boundary_value)
    working_array

/-- Membership of index x in the target slice of one axis of a
periodic_2d region copy: the source computes the bounds
lo = boundary_size + max(r*w, -boundary_size) and
hi = boundary_size + min((r+1)*w, w + boundary_size) and slices [lo:hi];
x is in the target exactly when lo <= x < hi. -/
def slabCond (boundary_size : ℕ) (w r : ℤ) (x : ℕ) : Prop :=
  (boundary_size : ℤ) + max (r * w) (-(boundary_size : ℤ)) ≤ (x : ℤ) ∧
  (x : ℤ) < (boundary_size : ℤ) + min ((r + 1) * w) (w + (boundary_size : ℤ))

instance (boundary_size : ℕ) (w r : ℤ) (x : ℕ) :
    Decidable (slabCond boundary_size w r x) := by
  unfold slabCond
  infer_instance

/-- One region copy of utils.periodic_2d, for a pair (xr, yr):
w_x = shape[0] - 2*boundary_size (and w_y likewise from shape[1]), and
working_array[x_0:x_1, y_0:y_1] =
working_array[x_0-xr*w_x : x_1-xr*w_x, y_0-yr*w_y : y_1-yr*w_y]
with the bounds of slabCond, i.e. each target cell (x, y) receives the
value at (x - xr*w_x, y - yr*w_y). The right-hand side is read from the
buffer as it stands when this region is processed. -/
def regionCopy (boundary_size : ℕ) (xr yr : ℤ) (a : Mat) : Mat :=
  let w_x : ℤ := (a.rows : ℤ) - 2 * boundary_size
  let w_y : ℤ := (a.cols : ℤ) - 2 * boundary_size
  { a with
    get := fun x y =>
      if slabCond boundary_size w_x xr x ∧ slabCond boundary_size w_y yr y then
        a.get ((x - xr * w_x).toNat) ((y - yr * w_y).toNat)
      else a.get x y }

/-- utils.periodic_2d: the nested loops for xr in [-1, 0, 1]:
for yr in [-1, 0, 1], each iteration performing one region copy. The
shape is captured once before the loops; regionCopy reads it from the
current buffer, whose shape region copies never change. -/
def periodic_2d (working_array : Mat) (boundary_size : ℕ) : Mat :=
  ([-1, 0, 1] : List ℤ).foldl
    (fun w xr =>
      ([-1, 0, 1] : List ℤ).foldl (fun w yr => regionCopy boundary_size xr yr w) w)
    working_array

/-- The nine (xr, yr) pairs in the order the source loops visit them. -/
def nineRegions : List (ℤ × ℤ) :=
  [(-1, -1), (-1, 0), (-1, 1), (0, -1), (0, 0), (0, 1), (1, -1), (1, 0), (1, 1)]

/-- The spec's periodic source position along one axis: a cell in the
left margin reads from one interior width to its right, a cell in the
right margin from one interior width to its left, and an interior cell
from itself. -/
def wrapSrc (boundary_size w x : ℕ) : ℕ :=
  if x < boundary_size then x + w
  else if boundary_size + w ≤ x then x - w
  else x

/-- Modelled from the spec: the double-buffered reference update
u_new(x) = u_old(x) - c * (dt/dx) * (u_old(x) - u_old(x-1)) on the
interior cells of a padded rank-1 buffer (boundary width 1), in which
every right-hand-side term reads the pre-step field; coef stands for
c * dt / dx. -/
def upwind_reference (u_old : Vec) (coef : ℚ) : Vec :=
  ⟨u_old.len,
   fun x =>
     if 1 ≤ x ∧ x < u_old.len - 1 then
       u_old.get x - coef * (u_old.get x - u_old.get (x - 1))
     else u_old.get x⟩

/-- Sum of the interior cells of a padded rank-1 buffer with boundary
width 1 (cells 1 through len-2). -/
def interiorSum (s : Vec) : ℚ :=
  ∑ i ∈ Finset.range (s.len - 2), s.get (i + 1)

/-- C1: the constant-2D boundary update is claimed to write the constant
only into the boundary slabs and leave the interior unchanged, but the
source's slices working_array[i:, :] and working_array[:-(i+1), :]
(and the column analogues) cover the whole array already at i = 0, so the
interior is overwritten too, contradicting the function's own docstring.
On the 3x3 buffer [[1,2,3],[4,5,6],[7,8,9]] with boundary width 1 and
constant 0, the interior cell (1,1) holds 5 before the call and 0 after. -/
theorem constant_2d_overwrites_interior :
    (constant_2d (matOfLists [[1, 2, 3], [4, 5, 6], [7, 8, 9]]) 1 0).get 1 1 = 0 ∧
    (matOfLists [[1, 2, 3], [4, 5, 6], [7, 8, 9]]).get 1 1 = 5 := by
  decide

/-- C2: the spec claims that after any step with periodic=false the
boundary cells equal constant_boundary_value, but convection_linear_1d
calls update_boundary without forwarding constant_boundary_value, so the
boundary is stamped with the default 0.0. In the run with
initial_state=[1], timestep_size=1, step_length=(1,), speed=(1,),
periodic=false and constant_boundary_value=5, the padded buffer right
after the first step's boundary update has 0, not 5, in both boundary
cells. -/
theorem linear1d_boundary_ignores_cbv :
    (linear1dAfterBoundary (vecOfList [1]) 1 1 1 5 false 0).get 0 = 0 ∧
    (linear1dAfterBoundary (vecOfList [1]) 1 1 1 5 false 0).get 2 = 0 ∧
    (0 : ℚ) ≠ 5 := by
  decide

/-- C3: with initial_state = [0,0,1,0,0], speed=(1,), step_length=(1,),
timestep_size=1/2, periodic=false and one timestep, convection returns a
field whose index-3 value is 1/2 and whose cells 0, 1 and 4 are still 0. -/
theorem convection_concrete_scenario :
    ∃ w : Vec,
      convection (.r1 (vecOfList [0, 0, 1, 0, 0])) 1 (1/2) [1] false
          (some [1]) 0 = .ok (.r1 w) ∧
      w.get 3 = 1/2 ∧ w.get 0 = 0 ∧ w.get 1 = 0 ∧ w.get 4 = 0 := by
  refine ⟨_, rfl, ?_, ?_, ?_, ?_⟩ <;>
    norm_num [linear1dLoopState, np_isub_interior, update_boundary,
      constant_1d, periodic_1d, np_pad, np_strip, vecOfList, Vec.pySet,
      Vec.pyGet, pyIdx, List.range_succ]
  omega

/-- C4: the vectorized in-place interior update
state[1:-1] -= coef * (state[1:-1] - state[:-2]), whose right-hand side
numpy stages as a temporary before writing, agrees cell for cell with the
double-buffered reference update that reads only pre-step values. -/
theorem np_isub_interior_eq_upwind_reference (s : Vec) (coef : ℚ) (x : ℕ) :
    (np_isub_interior s coef).get x = (upwind_reference s coef).get x := by
  show (if 1 ≤ x ∧ x + 1 < s.len then
          s.get x - coef * (s.get (1 + (x - 1)) - s.get (x - 1))
        else s.get x) =
       (if 1 ≤ x ∧ x < s.len - 1 then
          s.get x - coef * (s.get x - s.get (x - 1))
        else s.get x)
  by_cases h : 1 ≤ x ∧ x + 1 < s.len
  · have h' : 1 ≤ x ∧ x < s.len - 1 := by omega
    have hx : 1 + (x - 1) = x := by omega
    rw [if_pos h, if_pos h', hx]
  · have h' : ¬(1 ≤ x ∧ x < s.len - 1) := by omega
    rw [if_neg h, if_neg h']

/-- C9: for an initial_state whose rank is neither 1 nor 2 the dispatcher
falls through every branch and raises RuntimeError (the error the spec
names UnsupportedConfiguration), for every other argument combination;
the dispatcher is pure up to that point, so no buffer is allocated or
mutated and initial_state is untouched. -/
theorem convection_rank_guard (a : PyArray) (h1 : a.ndim ≠ 1)
    (h2 : a.ndim ≠ 2) (num_timesteps : ℕ) (timestep_size : ℚ)
    (step_length : List ℚ) (periodic : Bool) (speed : Option (List ℚ))
    (constant_boundary_value : ℚ) :
    convection a num_timesteps timestep_size step_length periodic speed
      constant_boundary_value = .error .runtimeError := by
  cases a with
  | r1 v => exact absurd rfl h1
  | r2 m => exact absurd rfl h2
  | rother n => rfl

/-- Witness for C9 at the concrete rank-3 input. -/
theorem convection_rank_guard_witness :
    PyArray.ndim (.rother 3) ≠ 1 ∧ PyArray.ndim (.rother 3) ≠ 2 ∧
    convection (.rother 3) 5 1 [1] false none 0 = .error .runtimeError :=
  ⟨by decide, by decide,
    convection_rank_guard (.rother 3) (by decide) (by decide) 5 1 [1]
      false none 0⟩

/-- C10: for a rank-1 initial_state with speed omitted (None) or empty,
the dispatcher's call to convection_nonlinear_1d passes the keyword
argument constant_boundary_value, which that signature does not accept,
so Python raises TypeError at the call, for every num_timesteps - in
particular before any time-stepping - and the nonlinear 1D stub's
NotImplementedError is never reached. -/
theorem convection_nonlinear_1d_unreachable (v : Vec)
    (speed : Option (List ℚ)) (hs : speed = none ∨ speed = some [])
    (num_timesteps : ℕ) (timestep_size : ℚ) (step_length : List ℚ)
    (periodic : Bool) (constant_boundary_value : ℚ) :
    convection (.r1 v) num_timesteps timestep_size step_length periodic
      speed constant_boundary_value = .error .typeError := by
  rcases hs with h | h <;> subst h <;> rfl

/-- Witness for C10 at a concrete rank-1 input with speed = None. -/
theorem convection_nonlinear_1d_unreachable_witness :
    ((none : Option (List ℚ)) = none ∨ (none : Option (List ℚ)) = some []) ∧
    convection (.r1 (vecOfList [1])) 7 1 [1] false none 0 = .error .typeError :=
  ⟨Or.inl rfl,
    convection_nonlinear_1d_unreachable (vecOfList [1]) none (Or.inl rfl)
      7 1 [1] false 0⟩

theorem Vec.pySet_len (a : Vec) (i : ℤ) (v : ℚ) : (a.pySet i v).len = a.len :=
  rfl

/-- Characterization of the first k iterations of the periodic_1d loop
when the boundary fits (2*b <= len): positions below k hold the value one
interior width W = len - 2*b to their right, the top k positions hold the
value one interior width to their left, and everything else is untouched.
Every value read by the loop is a pre-call value, because the source
positions W+i and 2*b-1-i are never written first. -/
theorem periodic1d_fold_char (a : Vec) (b : ℕ) (hb : 1 ≤ b)
    (hL : 2 * b ≤ a.len) (k : ℕ) (hk : k ≤ b) :
    ((List.range k).foldl (periodic1dBody b) a).len = a.len ∧
    ∀ j, ((List.range k).foldl (periodic1dBody b) a).get j =
      if j < k then a.get (j + (a.len - 2 * b))
      else if a.len - k ≤ j ∧ j < a.len then a.get (j - (a.len - 2 * b))
      else a.get j := by
  induction k with
  | zero =>
      refine ⟨rfl, fun j => ?_⟩
      rw [List.range_zero, List.foldl_nil, if_neg (by omega),
        if_neg (by omega)]
  | succ n ih =>
      obtain ⟨hlen, hget⟩ := ih (by omega)
      rw [List.range_succ, List.foldl_append, List.foldl_cons, List.foldl_nil]
      set w := (List.range n).foldl (periodic1dBody b) a with hw
      have idx0 : pyIdx a.len (n : ℤ) = n := by
        unfold pyIdx; split <;> omega
      have idx1 : pyIdx a.len ((n : ℤ) - 2 * b) = n + (a.len - 2 * b) := by
        unfold pyIdx; split <;> omega
      have idx2 : pyIdx a.len (-((n : ℤ) + 1)) = a.len - 1 - n := by
        unfold pyIdx; split <;> omega
      have idx3 : pyIdx a.len (2 * (b : ℤ) - ((n : ℤ) + 1)) = 2 * b - 1 - n := by
        unfold pyIdx; split <;> omega
      refine ⟨hlen, fun j => ?_⟩
      simp only [periodic1dBody, Vec.pySet, Vec.pyGet, hlen, idx0, idx1,
        idx2, idx3]
      simp only [hget]
      split_ifs <;> first | rfl | omega | (congr 1; omega)

/-- C7: for a rank-1 buffer of length L with boundary width b (1 <= b,
2*b <= L), after periodic_1d each left-margin cell i < b holds the
pre-call value at i + W and each right-margin cell L-1-i holds the
pre-call value at L-1-i-W, where W = L - 2*b is the interior width. -/
theorem periodic_1d_wraps (a : Vec) (b : ℕ) (hb : 1 ≤ b)
    (hL : 2 * b ≤ a.len) (i : ℕ) (hi : i < b) :
    (periodic_1d a b).get i = a.get (i + (a.len - 2 * b)) ∧
    (periodic_1d a b).get (a.len - 1 - i) =
      a.get (a.len - 1 - i - (a.len - 2 * b)) := by
  obtain ⟨-, hget⟩ := periodic1d_fold_char a b hb hL b le_rfl
  constructor
  · rw [show (periodic_1d a b).get i =
        ((List.range b).foldl (periodic1dBody b) a).get i from rfl, hget i,
      if_pos hi]
  · rw [show (periodic_1d a b).get (a.len - 1 - i) =
        ((List.range b).foldl (periodic1dBody b) a).get (a.len - 1 - i) from
        rfl, hget (a.len - 1 - i), if_neg (by omega), if_pos (by omega)]

/-- Witness for C7 on the length-6 buffer [1,2,3,4,5,6] with b = 2. -/
theorem periodic_1d_wraps_witness :
    1 ≤ 2 ∧ 2 * 2 ≤ (vecOfList [1, 2, 3, 4, 5, 6]).len ∧ 0 < 2 ∧
    ((periodic_1d (vecOfList [1, 2, 3, 4, 5, 6]) 2).get 0 =
        (vecOfList [1, 2, 3, 4, 5, 6]).get
          (0 + ((vecOfList [1, 2, 3, 4, 5, 6]).len - 2 * 2)) ∧
      (periodic_1d (vecOfList [1, 2, 3, 4, 5, 6]) 2).get
          ((vecOfList [1, 2, 3, 4, 5, 6]).len - 1 - 0) =
        (vecOfList [1, 2, 3, 4, 5, 6]).get
          ((vecOfList [1, 2, 3, 4, 5, 6]).len - 1 - 0 -
            ((vecOfList [1, 2, 3, 4, 5, 6]).len - 2 * 2))) :=
  ⟨by decide, by decide, by decide,
    periodic_1d_wraps (vecOfList [1, 2, 3, 4, 5, 6]) 2 (by decide)
      (by decide) 0 (by decide)⟩

theorem foldl_vec_len {β : Type} (f : Vec → β → Vec)
    (hf : ∀ w i, (f w i).len = w.len) :
    ∀ (l : List β) (a : Vec), (l.foldl f a).len = a.len
  | [], _ => rfl
  | i :: t, a => by
      rw [List.foldl_cons, foldl_vec_len f hf t (f a i), hf]

theorem constant_1d_len (a : Vec) (b : ℕ) (v : ℚ) :
    (constant_1d a b v).len = a.len := by
  unfold constant_1d
  apply foldl_vec_len
  intro w i
  rfl

theorem periodic_1d_len (a : Vec) (b : ℕ) :
    (periodic_1d a b).len = a.len := by
  unfold periodic_1d
  apply foldl_vec_len
  intro w i
  rfl

theorem update_boundary_len (a : Vec) (b : ℕ) (p : Bool) (v : ℚ) :
    (update_boundary a b p v).len = a.len := by
  unfold update_boundary
  split
  · exact periodic_1d_len a b
  · exact constant_1d_len a b v

theorem np_isub_interior_len (s : Vec) (coef : ℚ) :
    (np_isub_interior s coef).len = s.len :=
  rfl

theorem np_isub_interior_get (s : Vec) (coef : ℚ) (x : ℕ)
    (h : 1 ≤ x ∧ x + 1 < s.len) :
    (np_isub_interior s coef).get x =
      s.get x - coef * (s.get x - s.get (x - 1)) := by
  show (if 1 ≤ x ∧ x + 1 < s.len then
          s.get x - coef * (s.get (1 + (x - 1)) - s.get (x - 1))
        else s.get x) = _
  rw [if_pos h, show 1 + (x - 1) = x by omega]

theorem linear1dLoopState_len (initial_state : Vec)
    (timestep_size step_length_x speed_x constant_boundary_value : ℚ)
    (periodic : Bool) :
    ∀ k, (linear1dLoopState initial_state timestep_size step_length_x
      speed_x constant_boundary_value periodic k).len =
        initial_state.len + 2
  | 0 => rfl
  | k + 1 => by
      show (np_isub_interior (update_boundary _ 1 periodic 0) _).len = _
      rw [np_isub_interior_len, update_boundary_len,
        linear1dLoopState_len initial_state timestep_size step_length_x
          speed_x constant_boundary_value periodic k]

/-- One periodic linear step conserves the interior sum: the boundary
update makes cell 0 equal cell L-2, so the upwind differences telescope
to zero across the interior. -/
theorem conserve_step (s : Vec) (coef : ℚ) (h2 : 2 ≤ s.len) :
    interiorSum (np_isub_interior (periodic_1d s 1) coef) = interiorSum s := by
  obtain ⟨hlen, hchar0⟩ := periodic1d_fold_char s 1 le_rfl (by omega) 1 le_rfl
  have hchar : ∀ j, (periodic_1d s 1).get j =
      if j < 1 then s.get (j + (s.len - 2 * 1))
      else if s.len - 1 ≤ j ∧ j < s.len then s.get (j - (s.len - 2 * 1))
      else s.get j := hchar0
  have hTlen : (periodic_1d s 1).len = s.len := hlen
  unfold interiorSum
  rw [np_isub_interior_len, hTlen]
  have hval : ∀ i ∈ Finset.range (s.len - 2),
      (np_isub_interior (periodic_1d s 1) coef).get (i + 1) =
        (periodic_1d s 1).get (i + 1) -
          coef * ((periodic_1d s 1).get (i + 1) - (periodic_1d s 1).get i) := by
    intro i hi
    simp only [Finset.mem_range] at hi
    rw [np_isub_interior_get _ _ _ (by rw [hTlen]; omega),
      show i + 1 - 1 = i by omega]
  rw [Finset.sum_congr rfl hval, Finset.sum_sub_distrib, ← Finset.mul_sum,
    Finset.sum_range_sub (fun j => (periodic_1d s 1).get j)]
  have hT2 : (periodic_1d s 1).get (s.len - 2) = s.get (s.len - 2) := by
    rw [hchar (s.len - 2)]
    split_ifs <;> first | rfl | omega | (congr 1; omega)
  have hT0 : (periodic_1d s 1).get 0 = s.get (s.len - 2) := by
    rw [hchar 0, if_pos (by omega)]
    congr 1
    omega
  have hsum : ∀ i ∈ Finset.range (s.len - 2),
      (periodic_1d s 1).get (i + 1) = s.get (i + 1) := by
    intro i hi
    simp only [Finset.mem_range] at hi
    rw [hchar (i + 1), if_neg (by omega), if_neg (by omega)]
  rw [Finset.sum_congr rfl hsum, hT2, hT0]
  ring

theorem linear1d_periodic_step (initial_state : Vec)
    (timestep_size step_length_x speed_x constant_boundary_value : ℚ)
    (k : ℕ) :
    interiorSum (linear1dLoopState initial_state timestep_size
        step_length_x speed_x constant_boundary_value true (k + 1)) =
      interiorSum (linear1dLoopState initial_state timestep_size
        step_length_x speed_x constant_boundary_value true k) := by
  have hlen := linear1dLoopState_len initial_state timestep_size
    step_length_x speed_x constant_boundary_value true k
  show interiorSum (np_isub_interior (periodic_1d _ 1) _) = _
  exact conserve_step _ _ (by omega)

/-- C6: for every rank-1 periodic linear run, the interior sum after each
step of the loop equals the interior sum before that step, and hence
equals the interior sum of the initial padded buffer across the whole
run: total mass is invariant in exact arithmetic. -/
theorem linear1d_periodic_mass_invariant (initial_state : Vec)
    (timestep_size step_length_x speed_x constant_boundary_value : ℚ)
    (k : ℕ) :
    interiorSum (linear1dLoopState initial_state timestep_size
        step_length_x speed_x constant_boundary_value true (k + 1)) =
      interiorSum (linear1dLoopState initial_state timestep_size
        step_length_x speed_x constant_boundary_value true k) ∧
    interiorSum (linear1dLoopState initial_state timestep_size
        step_length_x speed_x constant_boundary_value true k) =
      interiorSum (np_pad initial_state 1) := by
  refine ⟨linear1d_periodic_step initial_state timestep_size step_length_x
    speed_x constant_boundary_value k, ?_⟩
  induction k with
  | zero => rfl
  | succ n ihn =>
      rw [linear1d_periodic_step initial_state timestep_size step_length_x
        speed_x constant_boundary_value n, ihn]

/-- C8 fails as stated: with rank-1 initial_state [1,2], speed = None and
num_timesteps = 0, the dispatcher hits the keyword TypeError (see C10)
instead of returning initial_state unchanged. -/
theorem convection_zero_steps_counterexample :
    convection (.r1 (vecOfList [1, 2])) 0 1 [1] false none 0 ≠
      .ok (.r1 (vecOfList [1, 2])) := by
  intro h
  exact Except.noConfusion h

/-- C8 amended: on the linear 1D path - rank-1 initial_state, a truthy
1-tuple speed and a 1-tuple step_length, the only fully implemented
dispatcher combination - num_timesteps = 0 returns initial_state
unchanged, element for element; every other dispatcher-accepted
combination raises instead of returning. -/
theorem convection_zero_steps_identity (v : Vec)
    (timestep_size step_length_x speed_x constant_boundary_value : ℚ)
    (periodic : Bool) :
    ∃ w : Vec,
      convection (.r1 v) 0 timestep_size [step_length_x] periodic
          (some [speed_x]) constant_boundary_value = .ok (.r1 w) ∧
      w.len = v.len ∧ ∀ i, i < v.len → w.get i = v.get i := by
  refine ⟨np_strip (np_pad v 1) 1, rfl, by show v.len + 2 * 1 - 2 * 1 = v.len; omega, ?_⟩
  intro i hi
  show (np_pad v 1).get (i + 1) = v.get i
  unfold np_pad
  show (if 1 ≤ i + 1 ∧ i + 1 < 1 + v.len then v.get (i + 1 - 1) else 0) = _
  rw [if_pos ⟨by omega, by omega⟩, show i + 1 - 1 = i by omega]

/-- Folding a list of region pairs over a buffer, one regionCopy each;
periodic_2d is this fold over nineRegions. -/
def regionFold (boundary_size : ℕ) (l : List (ℤ × ℤ)) (a : Mat) : Mat :=
  l.foldl (fun m p => regionCopy boundary_size p.1 p.2 m) a

theorem periodic_2d_eq_regionFold (a : Mat) (b : ℕ) :
    periodic_2d a b = regionFold b nineRegions a :=
  rfl

theorem regionCopy_rows (b : ℕ) (xr yr : ℤ) (a : Mat) :
    (regionCopy b xr yr a).rows = a.rows :=
  rfl

theorem regionCopy_cols (b : ℕ) (xr yr : ℤ) (a : Mat) :
    (regionCopy b xr yr a).cols = a.cols :=
  rfl

theorem regionFold_rows (b : ℕ) :
    ∀ (l : List (ℤ × ℤ)) (a : Mat), (regionFold b l a).rows = a.rows
  | [], _ => rfl
  | p :: t, a => regionFold_rows b t (regionCopy b p.1 p.2 a)

theorem regionFold_cols (b : ℕ) :
    ∀ (l : List (ℤ × ℤ)) (a : Mat), (regionFold b l a).cols = a.cols
  | [], _ => rfl
  | p :: t, a => regionFold_cols b t (regionCopy b p.1 p.2 a)

theorem regionCopy_get (b : ℕ) (xr yr : ℤ) (a : Mat) (x y : ℕ) :
    (regionCopy b xr yr a).get x y =
      if slabCond b ((a.rows : ℤ) - 2 * b) xr x ∧
          slabCond b ((a.cols : ℤ) - 2 * b) yr y then
        a.get ((x - xr * ((a.rows : ℤ) - 2 * b)).toNat)
          ((y - yr * ((a.cols : ℤ) - 2 * b)).toNat)
      else a.get x y :=
  rfl

theorem slabCond_neg1 (b w x : ℕ) (hw : b ≤ w) :
    slabCond b (w : ℤ) (-1) x ↔ x < b := by
  unfold slabCond
  omega

theorem slabCond_zero (b w x : ℕ) :
    slabCond b (w : ℤ) 0 x ↔ b ≤ x ∧ x < b + w := by
  unfold slabCond
  omega

theorem slabCond_one (b w x : ℕ) (hw : b ≤ w) :
    slabCond b (w : ℤ) 1 x ↔ b + w ≤ x ∧ x < 2 * b + w := by
  unfold slabCond
  omega

theorem slabCond_far (b w : ℕ) (r : ℤ) (x : ℕ) (hw : b ≤ w)
    (h2 : 2 ≤ r ∨ r ≤ -2) : ¬slabCond b (w : ℤ) r x := by
  unfold slabCond
  rcases h2 with h | h
  · have h1 : 2 * (w : ℤ) ≤ r * w :=
      mul_le_mul_of_nonneg_right h (by positivity)
    omega
  · have h1 : (r + 1) * (w : ℤ) ≤ (-1) * w :=
      mul_le_mul_of_nonneg_right (by omega) (by positivity)
    omega

/-- The per-axis category of an index: -1 in the low margin, 0 in the
interior, 1 in the high margin region of an axis with boundary width
boundary_size and interior width w. -/
def xcat (boundary_size w x : ℕ) : ℤ :=
  if x < boundary_size then -1 else if x < boundary_size + w then 0 else 1

theorem slabCond_iff_cat (b w : ℕ) (r : ℤ) (x : ℕ) (hb : 1 ≤ b)
    (hw : b ≤ w) :
    slabCond b (w : ℤ) r x ↔ r = xcat b w x ∧ x < w + 2 * b := by
  constructor
  · intro h
    have hr : r = -1 ∨ r = 0 ∨ r = 1 := by
      by_contra hcon
      exact slabCond_far b w r x hw (by omega) h
    unfold xcat
    rcases hr with hr | hr | hr <;> subst hr
    · have hx := (slabCond_neg1 b w x hw).mp h
      rw [if_pos hx]
      omega
    · have hx := (slabCond_zero b w x).mp h
      rw [if_neg (by omega), if_pos (by omega)]
      omega
    · have hx := (slabCond_one b w x hw).mp h
      rw [if_neg (by omega), if_neg (by omega)]
      omega
  · intro ⟨hr, hx⟩
    subst hr
    unfold xcat
    split_ifs with h1 h2
    · exact (slabCond_neg1 b w x hw).mpr h1
    · exact (slabCond_zero b w x).mpr ⟨by omega, h2⟩
    · exact (slabCond_one b w x hw).mpr ⟨by omega, by omega⟩

theorem wrapSrc_interior (b w x : ℕ) (_hb : 1 ≤ b) (hw : b ≤ w)
    (hx : x < w + 2 * b) :
    b ≤ wrapSrc b w x ∧ wrapSrc b w x < b + w := by
  unfold wrapSrc
  split_ifs <;> omega

theorem wrapSrc_id (b w x : ℕ) (h1 : b ≤ x) (h2 : x < b + w) :
    wrapSrc b w x = x := by
  unfold wrapSrc
  rw [if_neg (by omega), if_neg (by omega)]

/-- Inside its slab, the region's source index equals the spec's wrapped
source position. -/
theorem slab_src (b w : ℕ) (r : ℤ) (x : ℕ) (hb : 1 ≤ b) (hw : b ≤ w)
    (h : slabCond b (w : ℤ) r x) :
    ((x : ℤ) - r * w).toNat = wrapSrc b w x := by
  obtain ⟨hr, hx⟩ := (slabCond_iff_cat b w r x hb hw).mp h
  subst hr
  unfold xcat wrapSrc
  split_ifs <;> omega

theorem Mat.ext2 (a a' : Mat) (h1 : a.rows = a'.rows) (h2 : a.cols = a'.cols)
    (h3 : ∀ x y, a.get x y = a'.get x y) : a = a' := by
  cases a
  cases a'
  simp only [Mat.mk.injEq]
  refine ⟨h1, h2, ?_⟩
  funext x y
  exact h3 x y

/-- Region copies never change an interior cell: a margin region's target
misses the interior and the center region copies each interior cell from
itself. -/
theorem regionCopy_interior (b w_x w_y : ℕ) (a : Mat) (hb : 1 ≤ b)
    (hwx : b ≤ w_x) (hwy : b ≤ w_y) (hr : a.rows = w_x + 2 * b)
    (hc : a.cols = w_y + 2 * b) (xr yr : ℤ) (x y : ℕ)
    (hx : b ≤ x ∧ x < b + w_x) (hy : b ≤ y ∧ y < b + w_y) :
    (regionCopy b xr yr a).get x y = a.get x y := by
  have hcx : ((a.rows : ℤ) - 2 * b) = ((w_x : ℕ) : ℤ) := by
    rw [hr]; push_cast; ring
  have hcy : ((a.cols : ℤ) - 2 * b) = ((w_y : ℕ) : ℤ) := by
    rw [hc]; push_cast; ring
  rw [regionCopy_get, hcx, hcy]
  by_cases h : slabCond b (w_x : ℤ) xr x ∧ slabCond b (w_y : ℤ) yr y
  · rw [if_pos h, slab_src b w_x xr x hb hwx h.1,
      slab_src b w_y yr y hb hwy h.2, wrapSrc_id b w_x x hx.1 hx.2,
      wrapSrc_id b w_y y hy.1 hy.2]
  · rw [if_neg h]

/-- Get-characterization of folding any list of region pairs: a cell's
final value is the spec's wrapped source value when the cell's category
pair occurs in the list (and the cell is in shape), and its original
value otherwise. Holds for an arbitrary processing list because distinct
regions have disjoint targets and every source lies in the interior,
which no region copy modifies. -/
theorem regionFold_get (b w_x w_y : ℕ) (hb : 1 ≤ b) (hwx : b ≤ w_x)
    (hwy : b ≤ w_y) :
    ∀ (l : List (ℤ × ℤ)) (a : Mat), a.rows = w_x + 2 * b →
      a.cols = w_y + 2 * b → ∀ x y,
      (regionFold b l a).get x y =
        if (xcat b w_x x, xcat b w_y y) ∈ l ∧ x < w_x + 2 * b ∧
            y < w_y + 2 * b then
          a.get (wrapSrc b w_x x) (wrapSrc b w_y y)
        else a.get x y := by
  intro l
  induction l with
  | nil =>
      intro a hr hc x y
      rw [if_neg (by simp)]
      rfl
  | cons p t ih =>
      intro a hr hc x y
      have hr' : (regionCopy b p.1 p.2 a).rows = w_x + 2 * b := hr
      have hc' : (regionCopy b p.1 p.2 a).cols = w_y + 2 * b := hc
      have hstep : regionFold b (p :: t) a =
          regionFold b t (regionCopy b p.1 p.2 a) := rfl
      rw [hstep, ih (regionCopy b p.1 p.2 a) hr' hc' x y]
      have hcx : ((a.rows : ℤ) - 2 * b) = ((w_x : ℕ) : ℤ) := by
        rw [hr]; push_cast; ring
      have hcy : ((a.cols : ℤ) - 2 * b) = ((w_y : ℕ) : ℤ) := by
        rw [hc]; push_cast; ring
      by_cases h1 : (xcat b w_x x, xcat b w_y y) ∈ t ∧ x < w_x + 2 * b ∧
          y < w_y + 2 * b
      · rw [if_pos h1, if_pos ⟨List.mem_cons_of_mem p h1.1, h1.2⟩]
        exact regionCopy_interior b w_x w_y a hb hwx hwy hr hc p.1 p.2 _ _
          (wrapSrc_interior b w_x x hb hwx h1.2.1)
          (wrapSrc_interior b w_y y hb hwy h1.2.2)
      · rw [if_neg h1]
        by_cases h2 : (x < w_x + 2 * b ∧ y < w_y + 2 * b) ∧
            p = (xcat b w_x x, xcat b w_y y)
        · rw [if_pos ⟨List.mem_cons.mpr (Or.inl h2.2.symm), h2.1⟩]
          have hsx : slabCond b (w_x : ℤ) p.1 x :=
            (slabCond_iff_cat b w_x p.1 x hb hwx).mpr ⟨by rw [h2.2], h2.1.1⟩
          have hsy : slabCond b (w_y : ℤ) p.2 y :=
            (slabCond_iff_cat b w_y p.2 y hb hwy).mpr ⟨by rw [h2.2], h2.1.2⟩
          rw [regionCopy_get, hcx, hcy, if_pos ⟨hsx, hsy⟩,
            slab_src b w_x p.1 x hb hwx hsx, slab_src b w_y p.2 y hb hwy hsy]
        · have hnotm : ¬((xcat b w_x x, xcat b w_y y) ∈ p :: t ∧
              x < w_x + 2 * b ∧ y < w_y + 2 * b) := by
            rintro ⟨hm, hbnd⟩
            rcases List.mem_cons.mp hm with he | ht
            · exact h2 ⟨hbnd, he.symm⟩
            · exact h1 ⟨ht, hbnd⟩
          rw [if_neg hnotm]
          have hnots : ¬(slabCond b (w_x : ℤ) p.1 x ∧
              slabCond b (w_y : ℤ) p.2 y) := by
            rintro ⟨hsx, hsy⟩
            obtain ⟨he1, hx1⟩ := (slabCond_iff_cat b w_x p.1 x hb hwx).mp hsx
            obtain ⟨he2, hy1⟩ := (slabCond_iff_cat b w_y p.2 y hb hwy).mp hsy
            exact h2 ⟨⟨hx1, hy1⟩, Prod.ext he1 he2⟩
          rw [regionCopy_get, hcx, hcy, if_neg hnots]

theorem cat_mem_nine (b w_x w_y x y : ℕ) :
    (xcat b w_x x, xcat b w_y y) ∈ nineRegions := by
  unfold xcat nineRegions
  split_ifs <;> simp

/-- C5 amended: for a rank-2 buffer of shape (w_x + 2b, w_y + 2b) with
1 <= b and interior widths at least the boundary width (b <= w_x,
b <= w_y), periodic_2d (a) gives every in-shape cell the pre-call value
of its source offset by exactly one interior width per wrapped axis
(margins and corners are windows onto adjacent periodic copies of the
interior), (b) leaves every interior cell unchanged, and (c) produces the
same buffer when the nine regions are processed in any order, because
every source range lies in the interior, which no region write touches. -/
theorem periodic_2d_tiles (b w_x w_y : ℕ) (A : Mat) (hb : 1 ≤ b)
    (hwx : b ≤ w_x) (hwy : b ≤ w_y) (hr : A.rows = w_x + 2 * b)
    (hc : A.cols = w_y + 2 * b) :
    (∀ x y, x < A.rows → y < A.cols →
        (periodic_2d A b).get x y =
          A.get (wrapSrc b w_x x) (wrapSrc b w_y y)) ∧
    (∀ x y, b ≤ x → x < b + w_x → b ≤ y → y < b + w_y →
        (periodic_2d A b).get x y = A.get x y) ∧
    (∀ l : List (ℤ × ℤ), l.Perm nineRegions →
        regionFold b l A = periodic_2d A b) := by
  refine ⟨?_, ?_, ?_⟩
  · intro x y hx hy
    rw [periodic_2d_eq_regionFold,
      regionFold_get b w_x w_y hb hwx hwy nineRegions A hr hc x y,
      if_pos ⟨cat_mem_nine b w_x w_y x y, by omega, by omega⟩]
  · intro x y hx1 hx2 hy1 hy2
    rw [periodic_2d_eq_regionFold,
      regionFold_get b w_x w_y hb hwx hwy nineRegions A hr hc x y,
      if_pos ⟨cat_mem_nine b w_x w_y x y, by omega, by omega⟩,
      wrapSrc_id b w_x x hx1 hx2, wrapSrc_id b w_y y hy1 hy2]
  · intro l hperm
    apply Mat.ext2
    · rw [periodic_2d_eq_regionFold, regionFold_rows, regionFold_rows]
    · rw [periodic_2d_eq_regionFold, regionFold_cols, regionFold_cols]
    · intro x y
      rw [regionFold_get b w_x w_y hb hwx hwy l A hr hc x y,
        periodic_2d_eq_regionFold,
        regionFold_get b w_x w_y hb hwx hwy nineRegions A hr hc x y]
      simp only [hperm.mem_iff]

/-- Witness for the amended C5 on a 3x3 buffer with b = 1, w = 1: the
corner cell (0,0) receives the pre-call value at (1,1). -/
theorem periodic_2d_tiles_witness :
    1 ≤ 1 ∧ (matOfLists [[1, 2, 3], [4, 5, 6], [7, 8, 9]]).rows = 1 + 2 * 1 ∧
    (matOfLists [[1, 2, 3], [4, 5, 6], [7, 8, 9]]).cols = 1 + 2 * 1 ∧
    (periodic_2d (matOfLists [[1, 2, 3], [4, 5, 6], [7, 8, 9]]) 1).get 0 0 =
      (matOfLists [[1, 2, 3], [4, 5, 6], [7, 8, 9]]).get (wrapSrc 1 1 0)
        (wrapSrc 1 1 0) :=
  ⟨le_rfl, rfl, rfl,
    (periodic_2d_tiles 1 1 1 (matOfLists [[1, 2, 3], [4, 5, 6], [7, 8, 9]])
        le_rfl le_rfl le_rfl rfl rfl).1 0 0 (by decide) (by decide)⟩

/-- C5 as stated fails when the boundary width exceeds the interior
width: on a 5x5 buffer with b = 2 (interior width W = 1), the code's
clamped regions only fill the innermost ring of each margin, so the
corner cell (0,0) keeps its old value instead of the interior copy at
(0+W, 0+W) = (1,1) that the claim requires for every b >= 1. -/
theorem periodic_2d_thin_interior_counterexample :
    (periodic_2d
        (matOfLists [[0, 0, 0, 0, 0], [0, 9, 0, 0, 0], [0, 0, 0, 0, 0],
          [0, 0, 0, 0, 0], [0, 0, 0, 0, 0]]) 2).get 0 0 ≠
      (matOfLists [[0, 0, 0, 0, 0], [0, 9, 0, 0, 0], [0, 0, 0, 0, 0],
        [0, 0, 0, 0, 0], [0, 0, 0, 0, 0]]).get (wrapSrc 2 1 0)
        (wrapSrc 2 1 0) := by
  decide
